import Mathlib

/-!
Verification of the utilities in this repository against their design
specification.  The Python sources are shallowly embedded: Python `int`
becomes `Int`/`Nat`, Python `float` values are modelled as exact rationals
`ℚ`, strings become `String`/`List Char`, and code that can raise an
exception returns an `Option`.
-/

namespace ConvertNumbers

/-- The constant `HEX_DIGITS = "0123456789ABCDEF"` from `convert_numbers.py`. -/
def HEX_DIGITS : List Char := "0123456789ABCDEF".toList

/-- The `while n > 0` loop of `to_binary_str`: collect remainder digits of
repeated division by 2, least-significant first (before the `reverse`). -/
def binBits (n : Nat) : List Char :=
  if h : n = 0 then []
  else (if n % 2 = 1 then '1' else '0') :: binBits (n / 2)
decreasing_by exact Nat.div_lt_self (Nat.pos_of_ne_zero h) (by omega)

/-- `to_binary_str` from `convert_numbers.py`: converts an integer to a binary
string by repeated division; zero maps to "0", negatives get a "-" prefix. -/
def to_binary_str (number : Int) : String :=
  if number = 0 then "0"
  else
    let sign := if number < 0 then "-" else ""
    let n := number.natAbs
    sign ++ String.mk (binBits n).reverse

/-- The `while n > 0` loop of `to_hex_str`: collect remainder digits of
repeated division by 16, least-significant first (before the `reverse`). -/
def hexDigitsLoop (n : Nat) : List Char :=
  if h : n = 0 then []
  else HEX_DIGITS.getD (n % 16) '0' :: hexDigitsLoop (n / 16)
decreasing_by exact Nat.div_lt_self (Nat.pos_of_ne_zero h) (by omega)

/-- `to_hex_str` from `convert_numbers.py`. -/
def to_hex_str (number : Int) : String :=
  if number = 0 then "0"
  else
    let sign := if number < 0 then "-" else ""
    let n := number.natAbs
    sign ++ String.mk (hexDigitsLoop n).reverse

/-- Value of one binary digit character. -/
def binDigitVal (c : Char) : Nat := if c = '1' then 1 else 0

/-- Value of one hexadecimal digit character (as produced by `HEX_DIGITS`). -/
def hexDigitVal (c : Char) : Nat :=
  ((HEX_DIGITS.indexOf c))

/-- Interpret a digit-character list (most significant first) in base `b`. -/
def parseBase (b : Nat) (val : Char → Nat) (ds : List Char) : Nat :=
  ds.foldl (fun acc c => acc * b + val c) 0

/-- Interpret the textual output of the converter in base `b`, ignoring a
leading minus sign when present. -/
def parseOutput (b : Nat) (val : Char → Nat) (s : String) : Nat :=
  match s.toList with
  | '-' :: ds => parseBase b val ds
  | ds => parseBase b val ds

/-- Little-endian value of a digit list in base `b`. -/
def valLE (b : Nat) (val : Char → Nat) : List Char → Nat
  | [] => 0
  | c :: cs => val c + b * valLE b val cs

/-- `is_valid_integer_token` from `convert_numbers.py`.  The result is
`none` when the Python code would raise (indexing `token[0]` on an empty
token), `some b` when it returns the boolean `b`. -/
def is_valid_integer_token (token : List Char) : Option Bool :=
  if token = ['+'] ∨ token = ['-'] then some false
  else
    match token with
    | [] => none
    | c :: _ =>
        let start : Nat := if c = '+' ∨ c = '-' then 1 else 0
        if token.length ≤ start then some false
        else some ((token.drop start).all (fun ch => '0' ≤ ch && ch ≤ '9'))

/-- The pattern `[+-]?[0-9]+` from the specification: an optional sign
followed by at least one decimal digit and nothing else. -/
def matchesIntPattern (token : List Char) : Bool :=
  match token with
  | [] => false
  | c :: rest =>
      if c = '+' || c = '-' then
        !rest.isEmpty && rest.all (fun ch => '0' ≤ ch && ch ≤ '9')
      else
        (c :: rest).all (fun ch => '0' ≤ ch && ch ≤ '9')

/-- The fuel-indexed version of the `while n > 0` loop of `to_binary_str`:
`none` means the fuel ran out before the quotient reached zero. -/
def binBitsFuel : Nat → Nat → Option (List Char)
  | 0, n => if n = 0 then some [] else none
  | fuel + 1, n =>
      if n = 0 then some []
      else (binBitsFuel fuel (n / 2)).map
        (fun rest => (if n % 2 = 1 then '1' else '0') :: rest)

/-- The fuel-indexed version of the `while n > 0` loop of `to_hex_str`. -/
def hexDigitsFuel : Nat → Nat → Option (List Char)
  | 0, n => if n = 0 then some [] else none
  | fuel + 1, n =>
      if n = 0 then some []
      else (hexDigitsFuel fuel (n / 16)).map
        (fun rest => HEX_DIGITS.getD (n % 16) '0' :: rest)

theorem parseBase_append_singleton (b : Nat) (val : Char → Nat)
    (ds : List Char) (c : Char) :
    parseBase b val (ds ++ [c]) = parseBase b val ds * b + val c := by
  simp [parseBase, List.foldl_append]

theorem parseBase_reverse (b : Nat) (val : Char → Nat) (l : List Char) :
    parseBase b val l.reverse = valLE b val l := by
  induction l with
  | nil => rfl
  | cons c cs ih =>
      simp only [List.reverse_cons, parseBase_append_singleton, ih, valLE]
      ring

theorem valLE_binBits (n : Nat) : valLE 2 binDigitVal (binBits n) = n := by
  induction n using Nat.strong_induction_on with
  | _ n ih =>
    rw [binBits]
    by_cases h : n = 0
    · simp [h, valLE]
    · have hdiv : n / 2 < n := Nat.div_lt_self (Nat.pos_of_ne_zero h) (by omega)
      simp only [h, dite_false, valLE, ih _ hdiv]
      rcases Nat.mod_two_eq_zero_or_one n with h2 | h2 <;>
        simp [binDigitVal, h2] <;> omega

theorem hexDigitVal_getD (r : Nat) (hr : r < 16) :
    hexDigitVal (HEX_DIGITS.getD r '0') = r := by
  interval_cases r <;> decide

theorem valLE_hexDigitsLoop (n : Nat) :
    valLE 16 hexDigitVal (hexDigitsLoop n) = n := by
  induction n using Nat.strong_induction_on with
  | _ n ih =>
    rw [hexDigitsLoop]
    by_cases h : n = 0
    · simp [h, valLE]
    · have hdiv : n / 16 < n := Nat.div_lt_self (Nat.pos_of_ne_zero h) (by omega)
      have hmod : n % 16 < 16 := Nat.mod_lt _ (by omega)
      simp only [h, dite_false, valLE, ih _ hdiv, hexDigitVal_getD _ hmod]
      omega

theorem mem_binBits (n : Nat) (c : Char) (hc : c ∈ binBits n) :
    c = '0' ∨ c = '1' := by
  induction n using Nat.strong_induction_on with
  | _ n ih =>
    rw [binBits] at hc
    by_cases h : n = 0
    · simp [h] at hc
    · have hdiv : n / 2 < n := Nat.div_lt_self (Nat.pos_of_ne_zero h) (by omega)
      simp only [h, dite_false, List.mem_cons] at hc
      rcases hc with hc | hc
      · subst hc; split <;> simp
      · exact ih _ hdiv hc

theorem mem_hexDigitsLoop (n : Nat) (c : Char) (hc : c ∈ hexDigitsLoop n) :
    c ∈ HEX_DIGITS := by
  induction n using Nat.strong_induction_on with
  | _ n ih =>
    rw [hexDigitsLoop] at hc
    by_cases h : n = 0
    · simp [h] at hc
    · have hdiv : n / 16 < n := Nat.div_lt_self (Nat.pos_of_ne_zero h) (by omega)
      simp only [h, dite_false, List.mem_cons] at hc
      rcases hc with hc | hc
      · subst hc
        have : n % 16 < 16 := Nat.mod_lt _ (by omega)
        interval_cases h16 : n % 16 <;> decide
      · exact ih _ hdiv hc

theorem parseOutput_no_dash (b : Nat) (val : Char → Nat) (l : List Char)
    (h : '-' ∉ l) : parseOutput b val (String.mk l) = parseBase b val l := by
  unfold parseOutput
  cases l with
  | nil => rfl
  | cons c cs =>
      have hc : c ≠ '-' := fun hEq => h (hEq ▸ List.mem_cons_self c cs)
      simp only [String.toList]
      split
      · rename_i heq
        exact absurd (List.head_eq_of_cons_eq heq) hc
      · rfl

theorem parseOutput_dash (b : Nat) (val : Char → Nat) (l : List Char) :
    parseOutput b val (String.mk ('-' :: l)) = parseBase b val l := rfl

theorem to_binary_str_of_neg (N : Int) (hneg : N < 0) :
    to_binary_str N = String.mk ('-' :: (binBits N.natAbs).reverse) := by
  have h0 : N ≠ 0 := by omega
  simp only [to_binary_str, h0, if_false, hneg, if_true]
  rfl

theorem to_binary_str_of_pos (N : Int) (h0 : N ≠ 0) (hpos : ¬ N < 0) :
    to_binary_str N = String.mk ((binBits N.natAbs).reverse) := by
  simp only [to_binary_str, h0, if_false, hpos]
  rfl

theorem to_hex_str_of_neg (N : Int) (hneg : N < 0) :
    to_hex_str N = String.mk ('-' :: (hexDigitsLoop N.natAbs).reverse) := by
  have h0 : N ≠ 0 := by omega
  simp only [to_hex_str, h0, if_false, hneg, if_true]
  rfl

theorem to_hex_str_of_pos (N : Int) (h0 : N ≠ 0) (hpos : ¬ N < 0) :
    to_hex_str N = String.mk ((hexDigitsLoop N.natAbs).reverse) := by
  simp only [to_hex_str, h0, if_false, hpos]
  rfl

theorem binBitsFuel_eq (fuel n : Nat) (h : n ≤ fuel) :
    binBitsFuel fuel n = some (binBits n) := by
  induction fuel generalizing n with
  | zero =>
      have : n = 0 := by omega
      subst this
      rw [binBits]; rfl
  | succ fuel ih =>
      by_cases h0 : n = 0
      · subst h0; rw [binBits]; rfl
      · have hdiv : n / 2 ≤ fuel := by
          have : n / 2 < n := Nat.div_lt_self (Nat.pos_of_ne_zero h0) (by omega)
          omega
        rw [binBits]
        simp [binBitsFuel, h0, ih _ hdiv]

theorem hexDigitsFuel_eq (fuel n : Nat) (h : n ≤ fuel) :
    hexDigitsFuel fuel n = some (hexDigitsLoop n) := by
  induction fuel generalizing n with
  | zero =>
      have : n = 0 := by omega
      subst this
      rw [hexDigitsLoop]; rfl
  | succ fuel ih =>
      by_cases h0 : n = 0
      · subst h0; rw [hexDigitsLoop]; rfl
      · have hdiv : n / 16 ≤ fuel := by
          have : n / 16 < n := Nat.div_lt_self (Nat.pos_of_ne_zero h0) (by omega)
          omega
        rw [hexDigitsLoop]
        simp [hexDigitsFuel, h0, ih _ hdiv]

end ConvertNumbers

namespace PyStr

/-- Python `str.strip()`: remove leading and trailing whitespace. -/
def pyStrip (s : List Char) : List Char :=
  ((s.dropWhile Char.isWhitespace).reverse.dropWhile Char.isWhitespace).reverse

/-- Python `s.split(sep)` with a one-character separator: split on every
occurrence, keeping empty parts. -/
def splitOn (sep : Char) : List Char → List (List Char)
  | [] => [[]]
  | c :: cs =>
      if c = sep then [] :: splitOn sep cs
      else
        match splitOn sep cs with
        | [] => [[c]]
        | t :: ts => (c :: t) :: ts

/-- Python `line.split(",")` as used by the statistics and conversion
tools. -/
def splitComma (s : List Char) : List (List Char) := splitOn ',' s

/-- Helper for `splitWS`; `acc` is the current token, reversed. -/
def splitWSAux : List Char → List Char → List (List Char)
  | [], acc => if acc.isEmpty then [] else [acc.reverse]
  | c :: cs, acc =>
      if c.isWhitespace then
        (if acc.isEmpty then [] else [acc.reverse]) ++ splitWSAux cs []
      else splitWSAux cs (c :: acc)

/-- Python `part.split()` with no argument: split on runs of whitespace,
dropping empty parts. -/
def splitWS (s : List Char) : List (List Char) := splitWSAux s []

/-- The comma-then-whitespace tokenizer shared by `parse_numbers_from_file`
and `parse_integers_from_file` (applied to the stripped line). -/
def tokenize (line : List Char) : List (List Char) :=
  List.flatMap (splitComma line) splitWS

/-- Total number of tokens the tokenizer yields over a file's lines. -/
def totalTokens (lines : List (List Char)) : Nat :=
  (lines.map (fun l => (tokenize (pyStrip l)).length)).sum

theorem mem_splitWSAux (s : List Char) :
    ∀ (acc : List Char), (∀ c ∈ acc, c.isWhitespace = false) →
      ∀ t ∈ splitWSAux s acc, t ≠ [] ∧ ∀ c ∈ t, c.isWhitespace = false := by
  induction s with
  | nil =>
      intro acc hacc t ht
      simp only [splitWSAux] at ht
      by_cases h : acc.isEmpty
      · rw [if_pos h] at ht
        simp at ht
      · rw [if_neg h] at ht
        have := List.mem_singleton.mp ht
        subst this
        constructor
        · intro hnil
          exact h (by simp [List.reverse_eq_nil_iff.mp hnil])
        · intro c hc
          exact hacc c (List.mem_reverse.mp hc)
  | cons c cs ih =>
      intro acc hacc t ht
      simp only [splitWSAux] at ht
      by_cases hws : c.isWhitespace
      · rw [if_pos hws] at ht
        rcases List.mem_append.mp ht with ht | ht
        · by_cases h : acc.isEmpty
          · rw [if_pos h] at ht
            simp at ht
          · rw [if_neg h] at ht
            have := List.mem_singleton.mp ht
            subst this
            constructor
            · intro hnil
              exact h (by simp [List.reverse_eq_nil_iff.mp hnil])
            · intro d hd
              exact hacc d (List.mem_reverse.mp hd)
        · exact ih [] (by simp) t ht
      · rw [if_neg hws] at ht
        refine ih (c :: acc) ?_ t ht
        intro d hd
        rcases List.mem_cons.mp hd with rfl | hd
        · simpa using hws
        · exact hacc d hd

theorem mem_splitWS (s : List Char) (t : List Char) (ht : t ∈ splitWS s) :
    t ≠ [] ∧ ∀ c ∈ t, c.isWhitespace = false :=
  mem_splitWSAux s [] (by simp) t ht

theorem dropWhile_head_false {p : Char → Bool} {l : List Char}
    (h : ∀ c ∈ l, p c = false) : l.dropWhile p = l := by
  cases l with
  | nil => rfl
  | cons c cs =>
      rw [List.dropWhile_cons, h c (List.mem_cons_self c cs)]
      simp

theorem pyStrip_eq_self {t : List Char}
    (h : ∀ c ∈ t, c.isWhitespace = false) : pyStrip t = t := by
  unfold pyStrip
  rw [dropWhile_head_false h,
      dropWhile_head_false (fun c hc => h c (List.mem_reverse.mp hc)),
      List.reverse_reverse]

theorem mem_tokenize (line : List Char) (t : List Char) (ht : t ∈ tokenize line) :
    t ≠ [] ∧ ∀ c ∈ t, c.isWhitespace = false := by
  rcases List.mem_flatMap.mp ht with ⟨part, _, hmem⟩
  exact mem_splitWS part t hmem

end PyStr

namespace ComputeStatistics

/-- The inner token loop of `parse_numbers_from_file`: try `float(token)` on
each token, collecting parsed values and error records `(line, token)`.  The
Python builtin `float` is abstracted by the parameter `pyFloat` (`none`
models a `ValueError`). -/
def classifyTokens (pyFloat : List Char → Option ℚ) (lineNo : Nat) :
    List (List Char) → List ℚ × List (Nat × List Char)
  | [] => ([], [])
  | t :: ts =>
      let rest := classifyTokens pyFloat lineNo ts
      match pyFloat t with
      | some x => (x :: rest.1, rest.2)
      | none => (rest.1, (lineNo, t) :: rest.2)

/-- `parse_numbers_from_file` from `compute_statistics.py`, for a readable
file given as a list of raw lines; `lineNo` is the number of the first line
(the tool starts at 1). -/
def parse_numbers_from_file (pyFloat : List Char → Option ℚ) :
    Nat → List (List Char) → List ℚ × List (Nat × List Char)
  | _, [] => ([], [])
  | lineNo, l :: ls =>
      let rest := parse_numbers_from_file pyFloat (lineNo + 1) ls
      let line := PyStr.pyStrip l
      if line.isEmpty then rest
      else
        let cur := classifyTokens pyFloat lineNo (PyStr.tokenize line)
        (cur.1 ++ rest.1, cur.2 ++ rest.2)

/-- `compute_mean` from `compute_statistics.py`: one loop accumulating the
total and the count; values are modelled as exact rationals.  `none` models
the `ZeroDivisionError` raised on an empty list. -/
def compute_mean (values : List ℚ) : Option ℚ :=
  let total := values.foldl (· + ·) 0
  let count := values.length
  if count = 0 then none else some (total / count)

/-- `compute_median` from `compute_statistics.py` (expects the ascending
sorted list).  `none` models an `IndexError` on out-of-range indexing. -/
def compute_median (sorted_values : List ℚ) : Option ℚ :=
  let size := sorted_values.length
  let mid := size / 2
  if size % 2 = 1 then sorted_values[mid]?
  else do
    let a ← sorted_values[mid - 1]?
    let b ← sorted_values[mid]?
    some ((a + b) / 2)

/-- The `if current > max_count: max_count = current; modes = ... elif
current == max_count and current > 1: ...` update inside the loop of
`compute_mode`, executed when a run of equal values ends: it updates both
`max_count` and `modes`. -/
def modeFinish (prev : ℚ) (current maxCount : Nat) (modes : List ℚ) :
    Nat × List ℚ :=
  if current > maxCount then (current, [prev])
  else if current = maxCount ∧ current > 1 then (maxCount, modes ++ [prev])
  else (maxCount, modes)

/-- The post-loop block of `compute_mode`: unlike the in-loop block it
assigns only `modes` — `max_count` is left unchanged even when the final
run is strictly the longest (`if current > max_count: modes =
[sorted_values[-1]]` with no `max_count = current`). -/
def modePostLoop (prev : ℚ) (current maxCount : Nat) (modes : List ℚ) :
    Nat × List ℚ :=
  if current > maxCount then (maxCount, [prev])
  else if current = maxCount ∧ current > 1 then (maxCount, modes ++ [prev])
  else (maxCount, modes)

/-- The `for i in range(1, len(sorted_values))` loop of `compute_mode`
together with the post-loop block: `prev` is the previous element,
`current` the length of its (still open) run, `maxCount`/`modes` the best
completed runs so far. -/
def modeAux (prev : ℚ) (current maxCount : Nat) (modes : List ℚ) :
    List ℚ → Nat × List ℚ
  | [] => modePostLoop prev current maxCount modes
  | x :: xs =>
      if x = prev then modeAux x (current + 1) maxCount modes xs
      else
        let s := modeFinish prev current maxCount modes
        modeAux x 1 s.1 s.2 xs

/-- `compute_mode` from `compute_statistics.py` (expects the ascending
sorted list): `none` is the "no mode" outcome. -/
def compute_mode (sorted_values : List ℚ) : Option (List ℚ) :=
  match sorted_values with
  | [] => none
  | x :: xs =>
      let r := modeAux x 1 1 [] xs
      if r.1 = 1 then none else some r.2

/-- `compute_population_variance` from `compute_statistics.py`: mean of
squared deviations from `mean`, dividing by N.  `none` models the
`ZeroDivisionError` raised on an empty list. -/
def compute_population_variance (values : List ℚ) (mean : ℚ) : Option ℚ :=
  let total := values.foldl (fun acc v => acc + (v - mean) * (v - mean)) 0
  let count := values.length
  if count = 0 then none else some (total / count)

/-- The per-file report section built by `compute_statistics_for_file`
(text formatting, elapsed time and the display-only standard deviation
are omitted). -/
inductive StatsReport where
  | noData : StatsReport
  | stats (count : Nat) (mean median : ℚ) (mode : Option (List ℚ))
      (variance : ℚ) : StatsReport

/-- The aggregation core of `compute_statistics_for_file` from
`compute_statistics.py`, applied to the parsed numbers of one file:
an empty list short-circuits to the "no data" section before any
statistic is computed.  `none` models an uncaught exception. -/
def compute_statistics_for_file (numbers : List ℚ) : Option StatsReport :=
  if numbers.isEmpty then some .noData
  else
    let sorted_numbers := numbers.mergeSort (fun a b => a ≤ b)
    do
      let mean_val ← compute_mean numbers
      let median_val ← compute_median sorted_numbers
      let mode_val := compute_mode sorted_numbers
      let variance_val ← compute_population_variance numbers mean_val
      some (.stats numbers.length mean_val median_val mode_val variance_val)

theorem classifyTokens_length (pyFloat : List Char → Option ℚ) (lineNo : Nat)
    (ts : List (List Char)) :
    (classifyTokens pyFloat lineNo ts).1.length
      + (classifyTokens pyFloat lineNo ts).2.length = ts.length := by
  induction ts with
  | nil => rfl
  | cons t ts ih =>
      simp only [classifyTokens]
      cases pyFloat t <;> simp <;> omega

theorem parse_numbers_length (pyFloat : List Char → Option ℚ)
    (lines : List (List Char)) : ∀ (lineNo : Nat),
    (parse_numbers_from_file pyFloat lineNo lines).1.length
      + (parse_numbers_from_file pyFloat lineNo lines).2.length
      = PyStr.totalTokens lines := by
  induction lines with
  | nil => intro lineNo; rfl
  | cons l ls ih =>
      intro lineNo
      simp only [parse_numbers_from_file, PyStr.totalTokens, List.map_cons,
        List.sum_cons]
      have hr := ih (lineNo + 1)
      rw [PyStr.totalTokens] at hr
      by_cases h : (PyStr.pyStrip l).isEmpty
      · have hz : (PyStr.tokenize (PyStr.pyStrip l)).length = 0 := by
          have : PyStr.pyStrip l = [] := List.isEmpty_iff.mp h
          rw [this]
          rfl
        rw [if_pos h, hz]
        omega
      · rw [if_neg h]
        have hc := classifyTokens_length pyFloat lineNo
          (PyStr.tokenize (PyStr.pyStrip l))
        simp only [List.length_append]
        omega

theorem compute_mean_isSome (l : List ℚ) (h : l ≠ []) :
    (compute_mean l).isSome := by
  have : l.length ≠ 0 := fun hz => h (List.length_eq_zero.mp hz)
  simp only [compute_mean]
  rw [if_neg this]
  rfl

theorem compute_population_variance_isSome (l : List ℚ) (m : ℚ) (h : l ≠ []) :
    (compute_population_variance l m).isSome := by
  have : l.length ≠ 0 := fun hz => h (List.length_eq_zero.mp hz)
  simp only [compute_population_variance]
  rw [if_neg this]
  rfl

theorem compute_median_isSome (l : List ℚ) (h : l ≠ []) :
    (compute_median l).isSome := by
  have hlen : 0 < l.length := List.length_pos.mpr h
  simp only [compute_median]
  by_cases hodd : l.length % 2 = 1
  · rw [if_pos hodd, List.getElem?_eq_getElem (Nat.div_lt_self hlen (by omega))]
    rfl
  · rw [if_neg hodd]
    have heven : l.length % 2 = 0 := by omega
    have h2 : 2 ≤ l.length := by omega
    have hmid : l.length / 2 < l.length := Nat.div_lt_self hlen (by omega)
    have hmid1 : l.length / 2 - 1 < l.length := by omega
    rw [List.getElem?_eq_getElem hmid1, List.getElem?_eq_getElem hmid]
    rfl

theorem compute_statistics_for_file_isSome (numbers : List ℚ) :
    (compute_statistics_for_file numbers).isSome := by
  unfold compute_statistics_for_file
  by_cases h : numbers.isEmpty
  · rw [if_pos h]
    rfl
  · rw [if_neg h]
    have hne : numbers ≠ [] := fun hz => h (by simp [hz])
    have hsne : numbers.mergeSort (fun a b => a ≤ b) ≠ [] := by
      intro hs
      have h : (numbers.mergeSort (fun a b => a ≤ b)).length
          = numbers.length := by
        rw [List.length_mergeSort]
      rw [hs] at h
      exact hne (List.length_eq_zero.mp h.symm)
    rcases Option.isSome_iff_exists.mp (compute_mean_isSome numbers hne)
      with ⟨m, hm⟩
    rcases Option.isSome_iff_exists.mp
        (compute_median_isSome (numbers.mergeSort (fun a b => a ≤ b)) hsne)
      with ⟨md, hmd⟩
    rcases Option.isSome_iff_exists.mp
        (compute_population_variance_isSome numbers m hne) with ⟨v, hv⟩
    simp [hm, hmd, hv]

end ComputeStatistics

namespace ConvertNumbers

/-- Unsigned decimal value of a digit string. -/
def digitsVal (ds : List Char) : Nat :=
  ds.foldl (fun acc c => acc * 10 + (c.toNat - '0'.toNat)) 0

/-- Python `int(token)` as it is reached in `parse_integers_from_file`:
tokens matching `[+-]?[0-9]+` parse to their signed decimal value, anything
else raises `ValueError` (`none`). -/
def pyInt (t : List Char) : Option Int :=
  if matchesIntPattern t then
    match t with
    | [] => none
    | c :: ds =>
        if c = '-' then some (-(digitsVal ds : Int))
        else if c = '+' then some ((digitsVal ds : Int))
        else some ((digitsVal (c :: ds) : Int))
  else none

/-- The inner token loop of `parse_integers_from_file`: strip the token,
skip it when empty, record an error when invalid, otherwise parse it with
`int` (a failure there is also recorded as an error). -/
def classifyIntTokens (lineNo : Nat) :
    List (List Char) → List Int × List (Nat × List Char)
  | [] => ([], [])
  | t :: ts =>
      let rest := classifyIntTokens lineNo ts
      let ts' := PyStr.pyStrip t
      if ts'.isEmpty then rest
      else if is_valid_integer_token ts' = some true then
        match pyInt ts' with
        | some v => (v :: rest.1, rest.2)
        | none => (rest.1, (lineNo, ts') :: rest.2)
      else (rest.1, (lineNo, ts') :: rest.2)

/-- `parse_integers_from_file` from `convert_numbers.py`, for a readable
file given as a list of raw lines; `lineNo` is the number of the first
line. -/
def parse_integers_from_file :
    Nat → List (List Char) → List Int × List (Nat × List Char)
  | _, [] => ([], [])
  | lineNo, l :: ls =>
      let rest := parse_integers_from_file (lineNo + 1) ls
      let line := PyStr.pyStrip l
      if line.isEmpty then rest
      else
        let cur := classifyIntTokens lineNo (PyStr.tokenize line)
        (cur.1 ++ rest.1, cur.2 ++ rest.2)

theorem is_valid_iff_matches (token : List Char) :
    is_valid_integer_token token = some true ↔
      matchesIntPattern token = true := by
  cases token with
  | nil => simp [is_valid_integer_token, matchesIntPattern]
  | cons c rest =>
      by_cases hpm : (c :: rest) = ['+'] ∨ (c :: rest) = ['-']
      · rcases hpm with h | h <;> rw [h] <;> decide
      · by_cases hc : c = '+' ∨ c = '-'
        · cases rest with
          | nil =>
              exfalso
              rcases hc with rfl | rfl
              · exact hpm (Or.inl rfl)
              · exact hpm (Or.inr rfl)
          | cons d ds =>
              rcases hc with rfl | rfl <;>
                simp [is_valid_integer_token, matchesIntPattern, hpm]
        · push_neg at hc
          simp [is_valid_integer_token, matchesIntPattern, hpm, hc.1, hc.2]

theorem pyInt_isSome_of_matches {t : List Char}
    (h : matchesIntPattern t = true) : (pyInt t).isSome := by
  rw [pyInt.eq_def, if_pos h]
  cases t with
  | nil => simp [matchesIntPattern] at h
  | cons c cs =>
      by_cases hm : c = '-'
      · simp [hm]
      · by_cases hp : c = '+' <;> simp [hm, hp]

theorem classifyIntTokens_length (lineNo : Nat) (ts : List (List Char))
    (hts : ∀ t ∈ ts, t ≠ [] ∧ ∀ c ∈ t, c.isWhitespace = false) :
    (classifyIntTokens lineNo ts).1.length
      + (classifyIntTokens lineNo ts).2.length = ts.length := by
  induction ts with
  | nil => rfl
  | cons t ts ih =>
      have ht := hts t (List.mem_cons_self t ts)
      have hstrip : PyStr.pyStrip t = t := PyStr.pyStrip_eq_self ht.2
      have hne : ¬ (PyStr.pyStrip t).isEmpty := by
        rw [hstrip]
        simpa [List.isEmpty_iff] using ht.1
      have ihh := ih (fun u hu => hts u (List.mem_cons_of_mem t hu))
      simp only [classifyIntTokens]
      by_cases hv : is_valid_integer_token (PyStr.pyStrip t) = some true
      · have hm : matchesIntPattern (PyStr.pyStrip t) = true :=
          (is_valid_iff_matches _).mp hv
        have hs := pyInt_isSome_of_matches hm
        rcases Option.isSome_iff_exists.mp hs with ⟨v, hveq⟩
        rw [if_neg hne, if_pos hv, hveq]
        simp only [List.length_cons]
        omega
      · rw [if_neg hne, if_neg hv]
        simp only [List.length_cons]
        omega

theorem parse_integers_length (lines : List (List Char)) : ∀ (lineNo : Nat),
    (parse_integers_from_file lineNo lines).1.length
      + (parse_integers_from_file lineNo lines).2.length
      = PyStr.totalTokens lines := by
  induction lines with
  | nil => intro lineNo; rfl
  | cons l ls ih =>
      intro lineNo
      simp only [parse_integers_from_file, PyStr.totalTokens, List.map_cons,
        List.sum_cons]
      have hr := ih (lineNo + 1)
      rw [PyStr.totalTokens] at hr
      by_cases h : (PyStr.pyStrip l).isEmpty
      · have hz : (PyStr.tokenize (PyStr.pyStrip l)).length = 0 := by
          have : PyStr.pyStrip l = [] := List.isEmpty_iff.mp h
          rw [this]
          rfl
        rw [if_pos h, hz]
        omega
      · rw [if_neg h]
        have hc := classifyIntTokens_length lineNo
          (PyStr.tokenize (PyStr.pyStrip l))
          (fun t ht => PyStr.mem_tokenize _ t ht)
        simp only [List.length_append]
        omega

end ConvertNumbers

namespace Util

/-- The distinct elements of `ws` in first-seen order: the key order of a
Python dict built by insertion, and of a pandas groupby result in our
model. -/
def firstSeen {α : Type} [DecidableEq α] (ws : List α) : List α :=
  ws.foldl (fun acc w => if w ∈ acc then acc else acc ++ [w]) []

theorem firstSeen_append {α : Type} [DecidableEq α] (ws : List α) (w : α) :
    firstSeen (ws ++ [w])
      = if w ∈ firstSeen ws then firstSeen ws else firstSeen ws ++ [w] := by
  simp [firstSeen, List.foldl_append]

theorem mem_foldl_insert {α : Type} [DecidableEq α] (ws : List α) :
    ∀ (acc : List α) (u : α),
      u ∈ ws.foldl (fun acc w => if w ∈ acc then acc else acc ++ [w]) acc
        ↔ u ∈ acc ∨ u ∈ ws := by
  induction ws with
  | nil => intro acc u; simp
  | cons w ws ih =>
      intro acc u
      rw [List.foldl_cons, ih]
      by_cases hw : w ∈ acc
      · rw [if_pos hw]
        constructor
        · rintro (h | h)
          · exact Or.inl h
          · exact Or.inr (List.mem_cons_of_mem w h)
        · rintro (h | h)
          · exact Or.inl h
          · rcases List.mem_cons.mp h with rfl | h
            · exact Or.inl hw
            · exact Or.inr h
      · rw [if_neg hw]
        simp only [List.mem_append, List.mem_singleton, List.mem_cons]
        tauto

theorem mem_firstSeen {α : Type} [DecidableEq α] (ws : List α) (u : α) :
    u ∈ firstSeen ws ↔ u ∈ ws := by
  rw [firstSeen, mem_foldl_insert]
  simp

/-- The runtime conditions inspected by `main` in `compute_statistics.py`,
`convert_numbers.py` and `word_count.py`: whether a CLI argument was given
(`len(sys.argv) >= 2`), whether the input path is a directory
(`os.path.isdir`, which is also false for a missing path), and whether the
folder listing found any TC*.txt files (only meaningful in folder mode). -/
structure CliEnv where
  argGiven : Bool
  isDir : Bool
  hasMatchingFiles : Bool

end Util

namespace ComputeSales

/-- The pandas `.astype(str).str.strip().str.lower()` normalization applied
to catalogue titles and sales product names in `to_dataframe_catalogue` and
`to_dataframe_sales` of `compute_sales.py`. -/
def normalize (s : List Char) : List Char := (PyStr.pyStrip s).map Char.toLower

/-- One row of the `found_df` data frame built by `compute_totals`. -/
structure FoundRow where
  product : List Char
  quantity : ℚ
  price : ℚ
  total_cost : ℚ
deriving DecidableEq

/-- `df_sales.groupby("product", as_index=False)["quantity"].sum()` from
`compute_totals`: one row per distinct product with the summed quantity
(group keys in first-seen order in this model). -/
def sales_sum (sales : List (List Char × ℚ)) : List (List Char × ℚ) :=
  (Util.firstSeen (sales.map Prod.fst)).map
    (fun p => (p, ((sales.filter (fun r => r.1 == p)).map Prod.snd).sum))

/-- The left-join `sales_sum.merge(df_catalogue, left_on="product",
right_on="title", how="left")` for one summed sales row: one output row per
matching catalogue row, or a single row with null (`none`) price when no
catalogue row matches. -/
def merge_rows (catalogue : List (List Char × ℚ)) (s : List Char × ℚ) :
    List (List Char × ℚ × Option ℚ) :=
  let cands := catalogue.filter (fun c => c.1 == s.1)
  if cands.isEmpty then [(s.1, s.2, none)]
  else cands.map (fun c => (s.1, s.2, some c.2))

/-- `compute_totals` from `compute_sales.py`: the matched rows (with
`total_cost = quantity * price`, sorted by total cost descending) and the
missing rows (product and quantity, sorted by quantity descending). -/
def compute_totals (catalogue sales : List (List Char × ℚ)) :
    List FoundRow × List (List Char × ℚ) :=
  let merged := (sales_sum sales).flatMap (merge_rows catalogue)
  let found := merged.filterMap
    (fun r => r.2.2.map (fun pr => FoundRow.mk r.1 r.2.1 pr (r.2.1 * pr)))
  let missing := (merged.filter (fun r => r.2.2.isNone)).map
    (fun r => (r.1, r.2.1))
  (found.mergeSort (fun a b => decide (b.total_cost ≤ a.total_cost)),
   missing.mergeSort (fun a b => decide (b.2 ≤ a.2)))

/-- The `TOTAL COST` reported by `format_report`: 0.0 when no rows matched,
otherwise the sum of the matched rows' `total_cost` column. -/
def report_total (found : List FoundRow) : ℚ :=
  if found.isEmpty then 0 else (found.map FoundRow.total_cost).sum

/-- The normalization performed by `to_dataframe_sales` followed by
`compute_totals`: the pipeline a cleaned catalogue and valid sales rows go
through. -/
def process_sales (catalogue salesRaw : List (List Char × ℚ)) :
    List FoundRow × List (List Char × ℚ) :=
  compute_totals catalogue (salesRaw.map (fun r => (normalize r.1, r.2)))

/-- The runtime conditions inspected by `main` in `compute_sales.py`:
whether exactly one CLI argument was given (`len(argv) == 2`), whether the
base folder exists and is a directory, whether the output folder could be
prepared, whether the TC1 base catalogue loaded, whether any TC folders
were found, and whether the final report write succeeded. -/
structure SalesEnv where
  argCountIs2 : Bool
  baseFolderOk : Bool
  outputPrepOk : Bool
  catalogueOk : Bool
  hasTcFolders : Bool
  writeOk : Bool

/-- The exit-code structure of `main` from `compute_sales.py`: 1 for every
setup failure — including a missing CLI argument — and for a failed final
write; 0 on a completed run (per-record errors never change it). -/
def main_exit (e : SalesEnv) : Nat :=
  if ¬ e.argCountIs2 then 1
  else if ¬ e.baseFolderOk then 1
  else if ¬ e.outputPrepOk then 1
  else if ¬ e.catalogueOk then 1
  else if ¬ e.hasTcFolders then 1
  else if ¬ e.writeOk then 1
  else 0

theorem mem_sales_sum {sales : List (List Char × ℚ)} {s : List Char × ℚ}
    (hs : s ∈ sales_sum sales) :
    s.1 ∈ sales.map Prod.fst ∧
    s.2 = ((sales.filter (fun r => r.1 == s.1)).map Prod.snd).sum := by
  rcases List.mem_map.mp hs with ⟨p, hp, rfl⟩
  exact ⟨(Util.mem_firstSeen _ _).mp hp, rfl⟩

theorem mem_merge_rows {catalogue : List (List Char × ℚ)}
    {s : List Char × ℚ} {r : List Char × ℚ × Option ℚ}
    (hr : r ∈ merge_rows catalogue s) :
    r.1 = s.1 ∧ r.2.1 = s.2 ∧
    ((r.2.2 = none ∧ ∀ c ∈ catalogue, c.1 ≠ s.1) ∨
      ∃ c ∈ catalogue, c.1 = s.1 ∧ r.2.2 = some c.2) := by
  simp only [merge_rows] at hr
  by_cases hm : (catalogue.filter (fun c => c.1 == s.1)).isEmpty
  · rw [if_pos hm] at hr
    have := List.mem_singleton.mp hr
    subst this
    refine ⟨rfl, rfl, Or.inl ⟨rfl, ?_⟩⟩
    intro c hc hceq
    have hnil : catalogue.filter (fun c => c.1 == s.1) = [] :=
      List.isEmpty_iff.mp hm
    have := List.filter_eq_nil_iff.mp hnil c hc
    simp [hceq] at this
  · rw [if_neg hm] at hr
    rcases List.mem_map.mp hr with ⟨c, hc, rfl⟩
    have hc' := List.mem_filter.mp hc
    exact ⟨rfl, rfl, Or.inr ⟨c, hc'.1, by simpa using hc'.2, rfl⟩⟩

theorem compute_totals_found {catalogue sales : List (List Char × ℚ)}
    {row : FoundRow} (hrow : row ∈ (compute_totals catalogue sales).1) :
    row.total_cost = row.quantity * row.price ∧
    (row.product, row.price) ∈ catalogue ∧
    row.quantity
      = ((sales.filter (fun r => r.1 == row.product)).map Prod.snd).sum := by
  simp only [compute_totals] at hrow
  rw [(List.mergeSort_perm _ _).mem_iff] at hrow
  rcases List.mem_filterMap.mp hrow with ⟨r, hrm, hmap⟩
  rcases List.mem_flatMap.mp hrm with ⟨s, hss, hrms⟩
  rcases mem_merge_rows hrms with ⟨h1, h2, hnone | ⟨c, hc, hceq, hsome⟩⟩
  · rw [hnone.1] at hmap
    simp at hmap
  · rw [hsome] at hmap
    simp only [Option.map_some', Option.some.injEq] at hmap
    subst hmap
    rcases mem_sales_sum hss with ⟨hp, hsum⟩
    refine ⟨rfl, ?_, ?_⟩
    · show (r.1, c.2) ∈ catalogue
      have heq : (r.1, c.2) = c := by
        rw [h1, ← hceq]
      rw [heq]
      exact hc
    · show r.2.1 = ((sales.filter (fun t => t.1 == r.1)).map Prod.snd).sum
      rw [h2, hsum, h1]

theorem compute_totals_missing {catalogue sales : List (List Char × ℚ)}
    {m : List Char × ℚ} (hm : m ∈ (compute_totals catalogue sales).2) :
    (∀ c ∈ catalogue, c.1 ≠ m.1) ∧ m.1 ∈ sales.map Prod.fst := by
  simp only [compute_totals] at hm
  rw [(List.mergeSort_perm _ _).mem_iff] at hm
  rcases List.mem_map.mp hm with ⟨r, hr, rfl⟩
  rcases List.mem_filter.mp hr with ⟨hrm, hrn⟩
  rcases List.mem_flatMap.mp hrm with ⟨s, hss, hrms⟩
  rcases mem_merge_rows hrms with ⟨h1, h2, hnone | ⟨c, hc, hceq, hsome⟩⟩
  · constructor
    · intro c hc hceq
      apply hnone.2 c hc
      rw [← h1]
      exact hceq
    · show r.1 ∈ sales.map Prod.fst
      rw [h1]
      exact (mem_sales_sum hss).1
  · rw [hsome] at hrn
    simp at hrn

theorem compute_totals_complete {catalogue sales : List (List Char × ℚ)}
    {p : List Char} (hp : p ∈ sales.map Prod.fst) :
    (∃ row ∈ (compute_totals catalogue sales).1, row.product = p) ∨
    ∃ m ∈ (compute_totals catalogue sales).2, m.1 = p := by
  have hfs : p ∈ Util.firstSeen (sales.map Prod.fst) :=
    (Util.mem_firstSeen _ _).mpr hp
  have hss : (p, ((sales.filter (fun r => r.1 == p)).map Prod.snd).sum)
      ∈ sales_sum sales := by
    rw [sales_sum]
    exact List.mem_map_of_mem _ hfs
  by_cases hmatch : (catalogue.filter (fun c => c.1 == p)).isEmpty
  · right
    have hr : ((p, ((sales.filter (fun r => r.1 == p)).map Prod.snd).sum,
        (none : Option ℚ)))
        ∈ merge_rows catalogue
          (p, ((sales.filter (fun r => r.1 == p)).map Prod.snd).sum) := by
      simp only [merge_rows]
      rw [if_pos hmatch]
      exact List.mem_singleton.mpr rfl
    refine ⟨(p, ((sales.filter (fun r => r.1 == p)).map Prod.snd).sum),
      ?_, rfl⟩
    simp only [compute_totals]
    rw [(List.mergeSort_perm _ _).mem_iff]
    apply List.mem_map.mpr
    refine ⟨(p, ((sales.filter (fun r => r.1 == p)).map Prod.snd).sum, none),
      ?_, rfl⟩
    refine List.mem_filter.mpr ⟨List.mem_flatMap.mpr ⟨_, hss, hr⟩, by simp⟩
  · left
    have hne : catalogue.filter (fun c => c.1 == p) ≠ [] := by
      intro h
      exact hmatch (by simp [h])
    rcases List.exists_mem_of_ne_nil _ hne with ⟨c, hcmem⟩
    have hr : ((p, ((sales.filter (fun r => r.1 == p)).map Prod.snd).sum,
        some c.2))
        ∈ merge_rows catalogue
          (p, ((sales.filter (fun r => r.1 == p)).map Prod.snd).sum) := by
      simp only [merge_rows]
      rw [if_neg hmatch]
      exact List.mem_map.mpr ⟨c, hcmem, rfl⟩
    refine ⟨FoundRow.mk p ((sales.filter (fun r => r.1 == p)).map Prod.snd).sum
      c.2 (((sales.filter (fun r => r.1 == p)).map Prod.snd).sum * c.2),
      ?_, rfl⟩
    simp only [compute_totals]
    rw [(List.mergeSort_perm _ _).mem_iff]
    exact List.mem_filterMap.mpr ⟨_, List.mem_flatMap.mpr ⟨_, hss, hr⟩, rfl⟩

theorem report_total_eq_sum (found : List FoundRow) :
    report_total found = (found.map FoundRow.total_cost).sum := by
  rw [report_total]
  by_cases h : found.isEmpty
  · rw [if_pos h, List.isEmpty_iff.mp h]
    rfl
  · rw [if_neg h]

theorem sum_filter_normalized (salesRaw : List (List Char × ℚ))
    (p : List Char) :
    (((salesRaw.map (fun r => (normalize r.1, r.2))).filter
        (fun r => r.1 == p)).map Prod.snd).sum
      = ((salesRaw.filter (fun r => normalize r.1 == p)).map Prod.snd).sum := by
  rw [List.filter_map, List.map_map]
  rfl

theorem map_fst_normalized (salesRaw : List (List Char × ℚ)) :
    (salesRaw.map (fun r => (normalize r.1, r.2))).map Prod.fst
      = salesRaw.map (fun r => normalize r.1) := by
  rw [List.map_map]
  rfl

theorem process_sales_example :
    process_sales [("widget".toList, 5/2)]
        [("Widget".toList, 3), ("gadget".toList, 1)]
      = ([⟨"widget".toList, 3, 5/2, 15/2⟩], [("gadget".toList, 1)]) := by
  have h1 : ([("Widget".toList, (3 : ℚ)), ("gadget".toList, (1 : ℚ))]).map
      (fun r => (normalize r.1, r.2))
      = [("widget".toList, 3), ("gadget".toList, 1)] := by decide
  rw [process_sales, h1]
  have h2 : Util.firstSeen
      (([("widget".toList, (3 : ℚ)), ("gadget".toList, (1 : ℚ))]).map Prod.fst)
      = ["widget".toList, "gadget".toList] := by decide
  rw [compute_totals, sales_sum, h2]
  simp +decide only [List.map_cons, List.map_nil, List.filter_cons,
    List.filter_nil, List.flatMap_cons, List.flatMap_nil, merge_rows,
    List.isEmpty_cons, List.isEmpty_nil, List.sum_cons, List.sum_nil,
    List.filterMap_cons, List.filterMap_nil, Option.map_some',
    Option.map_none', List.append_nil, Option.isNone_some, Option.isNone_none,
    List.mergeSort_singleton, Prod.mk.injEq]
  simp [FoundRow.mk.injEq]
  norm_num

end ComputeSales

namespace ComputeStatistics

/-- The exit-code structure of `main` from `compute_statistics.py`: 2
without a CLI argument; 1 in folder mode with no TC*.txt files; 0 otherwise
(single-file mode never checks that the file exists — a missing file only
records an error and the run completes). -/
def main_exit (e : Util.CliEnv) : Nat :=
  if ¬ e.argGiven then 2
  else if e.isDir ∧ ¬ e.hasMatchingFiles then 1
  else 0

end ComputeStatistics

namespace ConvertNumbers

/-- The exit-code structure of `main` from `convert_numbers.py`: 2 without
a CLI argument; 1 in folder mode with no TC*.txt files; 0 otherwise
(single-file mode never checks that the file exists — a missing file only
records an error and the run completes). -/
def main_exit (e : Util.CliEnv) : Nat :=
  if ¬ e.argGiven then 2
  else if e.isDir ∧ ¬ e.hasMatchingFiles then 1
  else 0

end ConvertNumbers

namespace WordCount

/-- The exit-code structure of `main` from `word_count.py`: 2 without a CLI
argument; 1 in folder mode with no TC*.txt files; 0 otherwise (single-file
mode never checks that the file exists — a missing file only records an
error and the run completes). -/
def main_exit (e : Util.CliEnv) : Nat :=
  if ¬ e.argGiven then 2
  else if e.isDir ∧ ¬ e.hasMatchingFiles then 1
  else 0

/-- `read_words_from_file` from `word_count.py` for a readable file given as
its raw lines, numbered from `lineNo`: a line that strips to empty is an
error record (modelled by its line number), any other line is split on
single spaces, empty tokens are dropped and words are lower-cased. -/
def read_words_from_file :
    Nat → List (List Char) → List (List Char) × List Nat
  | _, [] => ([], [])
  | lineNo, l :: ls =>
      let rest := read_words_from_file (lineNo + 1) ls
      let line := PyStr.pyStrip l
      if line.isEmpty then (rest.1, lineNo :: rest.2)
      else
        let words := ((PyStr.splitOn ' ' line).filter
          (fun t => !t.isEmpty)).map (fun t => t.map Char.toLower)
        (words ++ rest.1, rest.2)

/-- `count_words` from `word_count.py`: a dict from word to count built by a
loop, preserving first-seen insertion order (modelled as an association
list). -/
def count_words (words : List (List Char)) : List (List Char × Nat) :=
  words.foldl
    (fun counts word =>
      if counts.any (fun p => p.1 == word) then
        counts.map (fun p => if p.1 = word then (p.1, p.2 + 1) else p)
      else counts ++ [(word, 1)])
    []

open Util in
theorem count_words_eq (ws : List (List Char)) :
    count_words ws = (firstSeen ws).map (fun w => (w, ws.count w)) := by
  induction ws using List.reverseRecOn with
  | nil => rfl
  | append_singleton ws w ih =>
      rw [count_words, List.foldl_append, List.foldl_cons, List.foldl_nil,
        ← count_words, ih, firstSeen_append]
      by_cases hw : w ∈ firstSeen ws
      · rw [if_pos hw]
        have hany : (((firstSeen ws).map (fun u => (u, ws.count u))).any
            (fun p => p.1 == w)) = true := by
          rw [List.any_eq_true]
          exact ⟨(w, ws.count w), List.mem_map_of_mem _ hw, by simp⟩
        rw [if_pos hany, List.map_map]
        apply List.map_congr_left
        intro u hu
        by_cases huw : u = w
        · subst huw
          simp [Function.comp, List.count_append, List.count_singleton]
        · have hcu : (ws ++ [w]).count u = ws.count u := by
            rw [List.count_append,
              List.count_eq_zero.mpr (by simp [huw] : u ∉ [w])]
            omega
          simp [Function.comp, huw, hcu]
      · rw [if_neg hw]
        have hany : (((firstSeen ws).map (fun u => (u, ws.count u))).any
            (fun p => p.1 == w)) = false := by
          rw [List.any_eq_false]
          intro p hp
          rcases List.mem_map.mp hp with ⟨u, hu, rfl⟩
          simp only [beq_iff_eq]
          intro h
          exact hw (h ▸ hu)
        rw [if_neg (by simp [hany]), List.map_append]
        have hwws : w ∉ ws := fun h => hw ((mem_firstSeen ws w).mpr h)
        congr 1
        · apply List.map_congr_left
          intro u hu
          have huws : u ∈ ws := (mem_firstSeen ws u).mp hu
          have huw : u ≠ w := fun h => hwws (h ▸ huws)
          have hcu : (ws ++ [w]).count u = ws.count u := by
            rw [List.count_append,
              List.count_eq_zero.mpr (by simp [huw] : u ∉ [w])]
            omega
          rw [hcu]
        · simp [List.count_append, List.count_eq_zero.mpr hwws]

end WordCount

namespace ComputeStatistics

/-- The highest occurrence frequency in `l`: the maximum of the counts of
its distinct values (0 for an empty list). -/
def maxFreq (l : List ℚ) : Nat :=
  ((Util.firstSeen l).map (fun x => l.count x)).foldr max 0

end ComputeStatistics

/-- C4: the claim is right and the code has a bug: the post-loop block of
`compute_mode` assigns `modes` but never updates `max_count`, so on the
sorted dataset [2, 2] -- whose maximum frequency is 2 > 1 -- the stale
`max_count == 1` test fires and the program answers "no mode" instead of
modes {2}.  On the claim's example [1,1,2,2,3] the longest runs close
inside the loop, where `max_count` is updated, so the correct [1, 2] is
still produced. -/
theorem c4_mode_stale_max_count_bug :
    ComputeStatistics.compute_mode [(2 : ℚ), 2] = none ∧
    ComputeStatistics.maxFreq [(2 : ℚ), 2] = 2 ∧
    ComputeStatistics.compute_mode [(1 : ℚ), 1, 2, 2, 3] = some [1, 2] := by
  refine ⟨by decide, by decide, by decide⟩

/-- C1: for every integer N, the binary output of `to_binary_str` read back as
a base-2 numeral (ignoring a leading minus sign) is |N|, the hexadecimal
output of `to_hex_str` read back as base 16 is |N|, zero converts to "0" in
both bases, and -5 converts to "-101" and "-5". -/
theorem c1_base_conversion_roundtrip (N : Int) :
    ConvertNumbers.parseOutput 2 ConvertNumbers.binDigitVal
        (ConvertNumbers.to_binary_str N) = N.natAbs ∧
    ConvertNumbers.parseOutput 16 ConvertNumbers.hexDigitVal
        (ConvertNumbers.to_hex_str N) = N.natAbs ∧
    ConvertNumbers.to_binary_str 0 = "0" ∧
    ConvertNumbers.to_hex_str 0 = "0" ∧
    ConvertNumbers.to_binary_str (-5) = "-101" ∧
    ConvertNumbers.to_hex_str (-5) = "-5" := by
  open ConvertNumbers in
  refine ⟨?_, ?_, rfl, rfl, ?_, ?_⟩
  · by_cases h0 : N = 0
    · subst h0; rfl
    · by_cases hneg : N < 0
      · rw [to_binary_str_of_neg N hneg, parseOutput_dash, parseBase_reverse,
          valLE_binBits]
      · rw [to_binary_str_of_pos N h0 hneg, parseOutput_no_dash, parseBase_reverse,
          valLE_binBits]
        intro hmem
        rcases mem_binBits _ _ (List.mem_reverse.mp hmem) with h | h <;> simp at h
  · by_cases h0 : N = 0
    · subst h0; rfl
    · by_cases hneg : N < 0
      · rw [to_hex_str_of_neg N hneg, parseOutput_dash, parseBase_reverse,
          valLE_hexDigitsLoop]
      · rw [to_hex_str_of_pos N h0 hneg, parseOutput_no_dash, parseBase_reverse,
          valLE_hexDigitsLoop]
        intro hmem
        have := mem_hexDigitsLoop _ _ (List.mem_reverse.mp hmem)
        exact absurd this (by decide)
  · rw [to_binary_str_of_neg (-5) (by norm_num)]
    rw [binBits]; norm_num
    rw [binBits]; norm_num
    rw [binBits]; norm_num
    rw [binBits]; norm_num
  · rw [to_hex_str_of_neg (-5) (by norm_num)]
    rw [hexDigitsLoop]; norm_num
    rw [hexDigitsLoop]; norm_num
    decide

/-- C10: the repeated-division loops of `to_binary_str` and `to_hex_str`
terminate for every integer: |N| iterations of fuel always suffice for the
loop to drive the quotient to zero and produce the digit list. -/
theorem c10_conversion_loops_terminate (N : Int) (fuel : Nat)
    (h : N.natAbs ≤ fuel) :
    ConvertNumbers.binBitsFuel fuel N.natAbs
        = some (ConvertNumbers.binBits N.natAbs) ∧
    ConvertNumbers.hexDigitsFuel fuel N.natAbs
        = some (ConvertNumbers.hexDigitsLoop N.natAbs) :=
  ⟨ConvertNumbers.binBitsFuel_eq fuel N.natAbs h,
   ConvertNumbers.hexDigitsFuel_eq fuel N.natAbs h⟩

/-- C6: a token is classified as a valid integer exactly when it matches
`[+-]?[0-9]+` (at least one digit after an optional sign); in particular
the lone tokens "+" and "-" are rejected. -/
theorem c6_integer_token_validity (token : List Char) :
    (ConvertNumbers.is_valid_integer_token token = some true ↔
      ConvertNumbers.matchesIntPattern token = true) ∧
    ConvertNumbers.is_valid_integer_token ['+'] = some false ∧
    ConvertNumbers.is_valid_integer_token ['-'] = some false :=
  ⟨ConvertNumbers.is_valid_iff_matches token, by decide, by decide⟩

/-- C7: in both the statistics tool and the conversion tool, every token
produced by the comma-then-whitespace split of a readable file is classified
exactly once, so the number of parsed values plus the number of token-level
error records equals the total number of tokens (for any behaviour of the
`float` builtin). -/
theorem c7_token_classification_partition
    (pyFloat : List Char → Option ℚ) (lines : List (List Char)) :
    ((ComputeStatistics.parse_numbers_from_file pyFloat 1 lines).1.length
      + (ComputeStatistics.parse_numbers_from_file pyFloat 1 lines).2.length
      = PyStr.totalTokens lines) ∧
    ((ConvertNumbers.parse_integers_from_file 1 lines).1.length
      + (ConvertNumbers.parse_integers_from_file 1 lines).2.length
      = PyStr.totalTokens lines) :=
  ⟨ComputeStatistics.parse_numbers_length pyFloat lines 1,
   ConvertNumbers.parse_integers_length lines 1⟩

/-- C2 is false as stated: the sales tool exits with code 1 (not 2) when
the required CLI argument is missing, and the conversion tool exits with
code 0 (not 1) when the single input path is missing (a missing path is not
a directory, so the run treats it as a file, records a file-level error and
completes). -/
theorem c2_exit_codes_counterexample :
    ComputeSales.main_exit ⟨false, true, true, true, true, true⟩ = 1 ∧
    ComputeSales.main_exit ⟨false, true, true, true, true, true⟩ ≠ 2 ∧
    ConvertNumbers.main_exit ⟨true, false, false⟩ = 0 ∧
    ConvertNumbers.main_exit ⟨true, false, false⟩ ≠ 1 := by decide

/-- C2 amended: the statistics, conversion and word-count tools exit 2
exactly when the CLI argument is missing, 1 exactly when a folder-mode run
finds no matching TC*.txt files, and 0 on every other run (runs that
complete, with per-record errors allowed — including a missing single input
file, which is not treated as fatal); the sales tool never exits 2: it
exits 0 exactly on a completed run (CLI argument present, base folder and
TC1 catalogue loaded, output prepared, TC folders present, report written)
and 1 on every setup or write failure, including a missing CLI argument. -/
theorem c2_exit_codes_amended (e : Util.CliEnv) (s : ComputeSales.SalesEnv) :
    (ComputeStatistics.main_exit e = 2 ↔ e.argGiven = false) ∧
    (ConvertNumbers.main_exit e = 2 ↔ e.argGiven = false) ∧
    (WordCount.main_exit e = 2 ↔ e.argGiven = false) ∧
    (ComputeStatistics.main_exit e = 1 ↔
      e.argGiven = true ∧ e.isDir = true ∧ e.hasMatchingFiles = false) ∧
    (ConvertNumbers.main_exit e = 1 ↔
      e.argGiven = true ∧ e.isDir = true ∧ e.hasMatchingFiles = false) ∧
    (WordCount.main_exit e = 1 ↔
      e.argGiven = true ∧ e.isDir = true ∧ e.hasMatchingFiles = false) ∧
    (ComputeStatistics.main_exit e = 0 ↔
      e.argGiven = true ∧ (e.isDir = true → e.hasMatchingFiles = true)) ∧
    (ConvertNumbers.main_exit e = 0 ↔
      e.argGiven = true ∧ (e.isDir = true → e.hasMatchingFiles = true)) ∧
    (WordCount.main_exit e = 0 ↔
      e.argGiven = true ∧ (e.isDir = true → e.hasMatchingFiles = true)) ∧
    (ComputeSales.main_exit s = 0 ↔
      s.argCountIs2 = true ∧ s.baseFolderOk = true ∧ s.outputPrepOk = true ∧
      s.catalogueOk = true ∧ s.hasTcFolders = true ∧ s.writeOk = true) ∧
    (ComputeSales.main_exit s = 1 ↔
      ¬(s.argCountIs2 = true ∧ s.baseFolderOk = true ∧ s.outputPrepOk = true ∧
        s.catalogueOk = true ∧ s.hasTcFolders = true ∧ s.writeOk = true)) ∧
    ComputeSales.main_exit s ≠ 2 := by
  rcases e with ⟨a, d, m⟩
  rcases s with ⟨s1, s2, s3, s4, s5, s6⟩
  cases a <;> cases d <;> cases m <;> cases s1 <;> cases s2 <;> cases s3 <;>
    cases s4 <;> cases s5 <;> cases s6 <;> decide

/-- C3: for every cleaned catalogue and set of sales rows, the sales tool
sums quantities per normalized (trimmed, lower-cased) product name,
left-joins the sums against the catalogue on normalized title with
`total_cost = quantity * price` on every matched row, reports products
without a catalogue match as missing, and reports a grand total equal to
the sum of all matched rows' total_cost (0 when no rows matched); the
catalogue [{widget, 2.50}] with sales [{Widget, 3}, {gadget, 1}] yields
matched total 7.50, "gadget" missing, grand total 7.50. -/
theorem c3_sales_join_and_totals (catalogue salesRaw : List (List Char × ℚ)) :
    (∀ row ∈ (ComputeSales.process_sales catalogue salesRaw).1,
        row.total_cost = row.quantity * row.price ∧
        (row.product, row.price) ∈ catalogue ∧
        row.quantity = ((salesRaw.filter
          (fun r => ComputeSales.normalize r.1 == row.product)).map
            Prod.snd).sum) ∧
    (∀ m ∈ (ComputeSales.process_sales catalogue salesRaw).2,
        (∀ c ∈ catalogue, c.1 ≠ m.1) ∧
        m.1 ∈ salesRaw.map (fun r => ComputeSales.normalize r.1)) ∧
    (∀ p ∈ salesRaw.map (fun r => ComputeSales.normalize r.1),
        (∃ row ∈ (ComputeSales.process_sales catalogue salesRaw).1,
          row.product = p) ∨
        ∃ m ∈ (ComputeSales.process_sales catalogue salesRaw).2, m.1 = p) ∧
    (∀ found : List ComputeSales.FoundRow,
        ComputeSales.report_total found
          = (found.map ComputeSales.FoundRow.total_cost).sum) ∧
    ComputeSales.process_sales [("widget".toList, 5/2)]
        [("Widget".toList, 3), ("gadget".toList, 1)]
      = ([⟨"widget".toList, 3, 5/2, 15/2⟩], [("gadget".toList, 1)]) ∧
    ComputeSales.report_total [⟨"widget".toList, 3, 5/2, 15/2⟩] = 15/2 := by
  open ComputeSales in
  refine ⟨?_, ?_, ?_, report_total_eq_sum, process_sales_example, ?_⟩
  · intro row hrow
    rcases compute_totals_found hrow with ⟨ht, hcat, hqty⟩
    refine ⟨ht, hcat, ?_⟩
    rw [hqty, sum_filter_normalized]
  · intro m hm
    rcases compute_totals_missing hm with ⟨hnc, hmem⟩
    refine ⟨hnc, ?_⟩
    rw [← map_fst_normalized]
    exact hmem
  · intro p hp
    apply compute_totals_complete
    rw [map_fst_normalized]
    exact hp
  · rw [report_total]
    norm_num

/-- C9: `compute_mean` and `compute_population_variance` are defined (no
division by zero) whenever the value list is non-empty, and
`compute_statistics_for_file` never hits the division-by-zero branch on any
input because it returns the "no data" section before calling them when the
parsed list is empty. -/
theorem c9_no_division_by_zero (l : List ℚ) (hne : l ≠ []) :
    ((ComputeStatistics.compute_mean l).isSome ∧
      ∀ m : ℚ, (ComputeStatistics.compute_population_variance l m).isSome) ∧
    ∀ numbers : List ℚ,
      (ComputeStatistics.compute_statistics_for_file numbers).isSome :=
  ⟨⟨ComputeStatistics.compute_mean_isSome l hne,
    fun m => ComputeStatistics.compute_population_variance_isSome l m hne⟩,
   ComputeStatistics.compute_statistics_for_file_isSome⟩

/-- Witness for C9 at l = [1, 2]. -/
theorem c9_no_division_by_zero_witness :
    ((ComputeStatistics.compute_mean [(1 : ℚ), 2]).isSome ∧
      ∀ m : ℚ,
        (ComputeStatistics.compute_population_variance [(1 : ℚ), 2] m).isSome) ∧
    ∀ numbers : List ℚ,
      (ComputeStatistics.compute_statistics_for_file numbers).isSome :=
  c9_no_division_by_zero [1, 2] (by simp)

/-- C8: the word-count mapping sends each lower-cased word to its number of
occurrences in first-seen insertion order (lower-casing being the only
transformation applied); the input "a A b" yields words a, a, b and counts
{a: 2, b: 1}; a line that strips to empty is recorded as an error and
contributes no words. -/
theorem c8_word_count_mapping (ws : List (List Char)) (lineNo : Nat)
    (lines : List (List Char)) (l : List Char)
    (hempty : PyStr.pyStrip l = []) :
    WordCount.count_words ws
      = (Util.firstSeen ws).map (fun w => (w, ws.count w)) ∧
    WordCount.read_words_from_file 1 ["a A b".toList]
      = (["a".toList, "a".toList, "b".toList], []) ∧
    WordCount.count_words ["a".toList, "a".toList, "b".toList]
      = [("a".toList, 2), ("b".toList, 1)] ∧
    WordCount.read_words_from_file lineNo (l :: lines)
      = ((WordCount.read_words_from_file (lineNo + 1) lines).1,
        lineNo :: (WordCount.read_words_from_file (lineNo + 1) lines).2) := by
  refine ⟨WordCount.count_words_eq ws, by decide, by decide, ?_⟩
  simp [WordCount.read_words_from_file, hempty]

/-- Witness for C8 with words ["x"], an empty line at line 3 and no further
lines. -/
theorem c8_word_count_mapping_witness :
    WordCount.count_words [("x".toList)]
      = (Util.firstSeen [("x".toList)]).map
          (fun w => (w, [("x".toList)].count w)) ∧
    WordCount.read_words_from_file 1 ["a A b".toList]
      = (["a".toList, "a".toList, "b".toList], []) ∧
    WordCount.count_words ["a".toList, "a".toList, "b".toList]
      = [("a".toList, 2), ("b".toList, 1)] ∧
    WordCount.read_words_from_file 3 ([] :: [])
      = ((WordCount.read_words_from_file 4 []).1,
        3 :: (WordCount.read_words_from_file 4 []).2) :=
  c8_word_count_mapping ["x".toList] 3 [] [] rfl

/-- Witness for C10 at N = -12 with fuel 12. -/
theorem c10_conversion_loops_terminate_witness :
    ConvertNumbers.binBitsFuel 12 (Int.natAbs (-12))
        = some (ConvertNumbers.binBits (Int.natAbs (-12))) ∧
    ConvertNumbers.hexDigitsFuel 12 (Int.natAbs (-12))
        = some (ConvertNumbers.hexDigitsLoop (Int.natAbs (-12))) :=
  c10_conversion_loops_terminate (-12) 12 (by norm_num)
